import Mathlib

set_option maxRecDepth 10000

/-!
Verification development for the `proof_of_commitment` repository.

The repository contains two relevant iterations of the same snarkyjs smart
contract that binds an append-only action log to a Merkle-committed account
ledger:

* the main contract `src/AccountManagement.ts` together with `src/Account.ts`
  (namespace `Main` below): a `MerkleTree(21)` ledger keyed by a monotonically
  assigned `accountNumber`, action tags `signUpMethodID = 1` and
  `releaseFundsRequestMethodID = 2`, a whole-log duplicate check in
  `requestSignUp`, and a hard witness assertion in
  `processSignUpRequestAction`;
* the `MerkleMap` iteration (file `unnamed/part_001`, namespace `MapVariant`
  below): accounts keyed directly in a `MerkleMap`, action tags
  `signUpRequestID = 0`, `addFundsRequestID = 1`, `releaseFundsRequestID = 2`,
  a ledger-only duplicate check in `signUpRequest`, and a `Circuit.if`
  (no assertion) on the witness in `processSignUpRequest`.

Modelling conventions:

* snarkyjs `Field` elements are natural numbers; `Field` addition and
  subtraction are modelled with an explicit modulus `p` (the Pasta Fp prime
  used by snarkyjs), so that the wrap-around of `Field.sub` is visible.
* Action cursors (`Reducer` action hashes) are modelled as positions in the
  dispatched action list: the initial action hash is position `0`, and the
  hash after consuming `n` actions is position `n`.  `getActions` between two
  cursors is the corresponding slice of the list.
* Poseidon, an external collision-resistant primitive, is a parameter
  `H : List Nat → Nat` of every definition that hashes; concrete executions
  instantiate it with an explicit function `Htoy`.
* Public keys are modelled as naturals, `PublicKey.empty()` as `0`.
* A contract method is a function returning `Option` of the new state: `none`
  models a failed assertion, which in snarkyjs aborts the whole call with no
  state change.  Outgoing `this.send` transfers are recorded in a `transfers`
  component of the state.  Incoming deposits and signature requirements are
  external collaborators (Authorizer / ValueTransfer of the specification)
  and have no effect on the modelled state.
-/

namespace ProofOfCommitment

/-- The Pasta Fp modulus: the order of the field `Field` of snarkyjs. -/
def p : Nat := 28948022309329048855892746252171976963363056481941560715954676764349967630337

/-- snarkyjs `Field.add` on natural representatives. -/
def fadd (a b : Nat) : Nat := (a + b) % p

/-- snarkyjs `Field.sub` on natural representatives (wraps at `0`). -/
def fsub (a b : Nat) : Nat := (a + (p - b % p)) % p

/-- One step of the branch-free select fold used by `getCurrentAction` in both
contract iterations: the accumulator is replaced exactly when the running
`Field` index equals `actionTurn`, and the index is always incremented. -/
def selIdx {α : Type} (turn : Nat) (st : Nat × α) (a : α) : Nat × α :=
  (fadd st.1 1, if st.1 = turn then a else st.2)

namespace Main

/-- `Account` of `src/Account.ts`: publicKey, accountNumber, balance,
actionOrigin, provider, released.  `UInt64` / `UInt32` / `Field` components
and public keys are naturals. -/
structure Account where
  publicKey : Nat
  accountNumber : Nat
  balance : Nat
  actionOrigin : Nat
  provider : Nat
  released : Nat
deriving DecidableEq

/-- `initialBalance` of `src/Account.ts` (5 MINA in nanomina). -/
def initialBalance : Nat := 5000000000

/-- `signUpMethodID = UInt32.from(1)` of `src/AccountManagement.ts`. -/
def signUpMethodID : Nat := 1

/-- `releaseFundsRequestMethodID = UInt32.from(2)` of
`src/AccountManagement.ts`. -/
def releaseFundsRequestMethodID : Nat := 2

/-- `Account.hash()`: Poseidon over the fields of the record.  `H` models the
external Poseidon primitive. -/
def Account.hash (H : List Nat → Nat) (a : Account) : Nat :=
  H [a.publicKey, a.accountNumber, a.balance, a.actionOrigin, a.provider, a.released]

/-- A `MerkleWitness(21)` path entry: `isLeft` flag and sibling hash. -/
abbrev WitnessEntry : Type := Bool × Nat

/-- `AccountWitness.calculateRoot(leaf)`: fold the path from the leaf, hashing
with the sibling on the correct side at each level. -/
def calculateRoot (H : List Nat → Nat) (w : List WitnessEntry) (leaf : Nat) : Nat :=
  w.foldl (fun h e => if e.1 then H [h, e.2] else H [e.2, h]) leaf

/-- `AccountWitness.calculateIndex()`: the leaf index encoded by the path
(`isLeft` at level `i` contributes bit `0`, otherwise bit `1`). -/
def calculateIndex (w : List WitnessEntry) : Nat :=
  w.foldr (fun e acc => 2 * acc + (if e.1 then 0 else 1)) 0

/-- Hash of the all-empty subtree of the given height (leaves are `Field(0)`). -/
def zeroHash (H : List Nat → Nat) : Nat → Nat
  | 0 => 0
  | n + 1 => H [zeroHash H n, zeroHash H n]

/-- `root = new MerkleTree(21).getRoot()`: the root of the empty tree of
height 21 (20 hashing levels above the leaves). -/
def root (H : List Nat → Nat) : Nat := zeroHash H 20

/-- The on-chain state of the main contract together with the dispatched
action log and the outgoing transfers performed by `this.send`.  Action
cursors (`Field` action hashes on chain) are positions in `log`. -/
structure ContractState where
  log : List Account
  startOfAllActions : Nat
  accountNumber : Nat
  numberOfPendingActions : Nat
  actionTurn : Nat
  startOfActionsRange : Nat
  endOfActionsRange : Nat
  accountsRoot : Nat
  transfers : List (Nat × Nat)
deriving DecidableEq

/-- `deploy`: initial state of the main contract. -/
def deploy (H : List Nat → Nat) : ContractState :=
  { log := []
    startOfAllActions := 0
    accountNumber := 1
    numberOfPendingActions := 0
    actionTurn := 0
    startOfActionsRange := 0
    endOfActionsRange := 0
    accountsRoot := root H
    transfers := [] }

/-- The reduce of `requestSignUp`: test every action dispatched since
`startOfAllActions` against the requested public key. -/
def existsInLog (log : List Account) (fromCursor : Nat) (publicKey : Nat) : Bool :=
  (log.drop fromCursor).foldl (fun st a => (a.publicKey == publicKey) || st) false

/-- `requestSignUp(publicKey)`: the user signature and the 5 MINA deposit are
external; the method folds over all actions from the genesis cursor and
asserts the key is not present, then dispatches a sign-up action. -/
def requestSignUp (s : ContractState) (publicKey : Nat) : Option ContractState :=
  if existsInLog s.log s.startOfAllActions publicKey then none
  else
    some { s with
      log := s.log ++
        [{ publicKey := publicKey
           accountNumber := 0
           balance := initialBalance
           actionOrigin := signUpMethodID
           provider := 0
           released := 0 }] }

/-- `setRangeOfActionsToBeProcessed()`: requires no pending actions, then
counts every action appended since the previous range end and freezes the new
range. -/
def setRangeOfActionsToBeProcessed (s : ContractState) : Option ContractState :=
  if s.numberOfPendingActions = 0 then
    some { s with
      actionTurn := 0
      numberOfPendingActions :=
        (s.log.drop s.endOfActionsRange).foldl (fun st _ => fadd st 1) 0
      startOfActionsRange := s.endOfActionsRange
      endOfActionsRange := s.log.length }
  else none

/-- The actions between `startOfActionsRange` and `endOfActionsRange`. -/
def rangeSlice (s : ContractState) : List Account :=
  (s.log.drop s.startOfActionsRange).take (s.endOfActionsRange - s.startOfActionsRange)

/-- The all-default accumulator of the `getCurrentAction` reduce:
`PublicKey.empty()`, zero balance, `UInt32.from(0)` origin, zero released. -/
def emptyAccount : Account :=
  { publicKey := 0, accountNumber := 0, balance := 0, actionOrigin := 0
    provider := 0, released := 0 }

/-- One step of the `getCurrentAction` reduce: each field is selected by
`Circuit.if(index.equals(actionTurn), action.field, state.field)` and the
`Field` index is incremented. -/
def selectStep (actionTurn : Nat) (st : Nat × Account) (action : Account) :
    Nat × Account :=
  let isCurrentAction := st.1 = actionTurn
  (fadd st.1 1,
   { publicKey := if isCurrentAction then action.publicKey else st.2.publicKey
     accountNumber :=
       if isCurrentAction then action.accountNumber else st.2.accountNumber
     balance := if isCurrentAction then action.balance else st.2.balance
     actionOrigin :=
       if isCurrentAction then action.actionOrigin else st.2.actionOrigin
     provider := if isCurrentAction then action.provider else st.2.provider
     released := if isCurrentAction then action.released else st.2.released })

/-- The record returned by `getCurrentAction`. -/
structure ActionWithMetadata where
  action : Account
  startOfActionsRange : Nat
  endOfActionsRange : Nat
  actionTurn : Nat
deriving DecidableEq

/-- `getCurrentAction()`: traverse the frozen range with the branch-free
select fold and echo the range cursors and the turn. -/
def getCurrentAction (s : ContractState) : ActionWithMetadata :=
  { action := ((rangeSlice s).foldl (selectStep s.actionTurn) (0, emptyAccount)).2
    startOfActionsRange := s.startOfActionsRange
    endOfActionsRange := s.endOfActionsRange
    actionTurn := s.actionTurn }

/-- `processSignUpRequestAction(accountWitness)`: asserts the witness proves
the empty leaf under the committed root, asserts the current action is a
sign-up, assigns the next `accountNumber`, asserts the witness index matches
it, commits the new leaf, and advances the turn. -/
def processSignUpRequestAction (H : List Nat → Nat) (s : ContractState)
    (accountWitness : List WitnessEntry) : Option ContractState :=
  if s.accountsRoot = calculateRoot H accountWitness 0 then
    let actionWithMetadata := getCurrentAction s
    if actionWithMetadata.action.actionOrigin = signUpMethodID then
      let accountState :=
        { actionWithMetadata.action with accountNumber := s.accountNumber }
      if accountState.accountNumber = calculateIndex accountWitness then
        some { s with
          accountNumber := fadd s.accountNumber 1
          accountsRoot := calculateRoot H accountWitness (accountState.hash H)
          actionTurn := fadd actionWithMetadata.actionTurn 1
          numberOfPendingActions := fsub s.numberOfPendingActions 1 }
      else none
    else none
  else none

/-- `releaseFundsRequest(accountState, accountWitness, provider, amount)`:
asserts the committed root contains the claimed state, asserts
`amount <= accountState.balance`, and dispatches a release action carrying
the provider and the amount (the user signature is external). -/
def releaseFundsRequest (H : List Nat → Nat) (s : ContractState)
    (accountState : Account) (accountWitness : List WitnessEntry)
    (provider amount : Nat) : Option ContractState :=
  if s.accountsRoot = calculateRoot H accountWitness (accountState.hash H) then
    if amount ≤ accountState.balance then
      some { s with
        log := s.log ++
          [{ accountState with
             actionOrigin := releaseFundsRequestMethodID
             provider := provider
             released := amount }] }
    else none
  else none

/-- `processReleaseFundsRequest(accountState, accountWitness)`: asserts the
witness proves the claimed state under the committed root, asserts the current
action is a release, sends the released amount to the recorded provider,
commits the updated record (balance decreased, released zeroed; `UInt64.sub`
aborts on underflow), and advances the turn. -/
def processReleaseFundsRequest (H : List Nat → Nat) (s : ContractState)
    (accountState : Account) (accountWitness : List WitnessEntry) :
    Option ContractState :=
  if s.accountsRoot = calculateRoot H accountWitness (accountState.hash H) then
    let actionWithMetadata := getCurrentAction s
    let action := actionWithMetadata.action
    if action.actionOrigin = releaseFundsRequestMethodID then
      if action.released ≤ action.balance then
        let newAccountState :=
          { action with balance := action.balance - action.released, released := 0 }
        some { s with
          transfers := s.transfers ++ [(action.provider, action.released)]
          accountsRoot := calculateRoot H accountWitness (newAccountState.hash H)
          actionTurn := fadd actionWithMetadata.actionTurn 1
          numberOfPendingActions := fsub s.numberOfPendingActions 1 }
      else none
    else none
  else none

/-- An external call to the main contract. -/
inductive Op where
  | requestSignUp (publicKey : Nat)
  | releaseFundsRequest (accountState : Account) (accountWitness : List WitnessEntry)
      (provider amount : Nat)
  | setRangeOfActionsToBeProcessed
  | processSignUpRequestAction (accountWitness : List WitnessEntry)
  | processReleaseFundsRequest (accountState : Account)
      (accountWitness : List WitnessEntry)

/-- Execute one call of the main contract. -/
def step (H : List Nat → Nat) (s : ContractState) : Op → Option ContractState
  | .requestSignUp publicKey => requestSignUp s publicKey
  | .releaseFundsRequest accountState accountWitness provider amount =>
      releaseFundsRequest H s accountState accountWitness provider amount
  | .setRangeOfActionsToBeProcessed => setRangeOfActionsToBeProcessed s
  | .processSignUpRequestAction accountWitness =>
      processSignUpRequestAction H s accountWitness
  | .processReleaseFundsRequest accountState accountWitness =>
      processReleaseFundsRequest H s accountState accountWitness

/-- Execute a sequence of successful calls of the main contract (a failed
call leaves the state unchanged, so the reachable states are exactly the
results of successful sequences). -/
def run (H : List Nat → Nat) : ContractState → List Op → Option ContractState
  | s, [] => some s
  | s, op :: ops => (step H s op).bind (fun s2 => run H s2 ops)

/-- The state invariant of the main contract: the range cursors are valid
positions of the log, the turn and the pending count always split the size
of the frozen range exactly, and every dispatched action carries the tag of
the request handler that produced it. -/
def Inv (s : ContractState) : Prop :=
  s.startOfActionsRange ≤ s.endOfActionsRange ∧
  s.endOfActionsRange ≤ s.log.length ∧
  s.actionTurn + s.numberOfPendingActions =
    s.endOfActionsRange - s.startOfActionsRange ∧
  ∀ a ∈ s.log,
    a.actionOrigin = signUpMethodID ∨ a.actionOrigin = releaseFundsRequestMethodID

end Main

namespace MapVariant

/-- `Account` of the `MerkleMap` iteration (`unnamed/part_001`): publicKey,
balance, actionOrigin, released. -/
structure Account where
  publicKey : Nat
  balance : Nat
  actionOrigin : Nat
  released : Nat
deriving DecidableEq

/-- `signUpRequestID = UInt32.from(0)`. -/
def signUpRequestID : Nat := 0

/-- `addFundsRequestID = UInt32.from(1)`. -/
def addFundsRequestID : Nat := 1

/-- `releaseFundsRequestID = UInt32.from(2)`. -/
def releaseFundsRequestID : Nat := 2

/-- `serviceProviderAddress`: a fixed public key hard-coded in the contract,
modelled as an arbitrary distinguished natural. -/
def serviceProviderAddress : Nat := 62

/-- `UInt64` bound: `UInt64.add` and `UInt64.sub` abort outside `[0, 2^64)`. -/
def u64Bound : Nat := 18446744073709551616

/-- `Account.hash()`: Poseidon over the fields of the record. -/
def Account.hash (H : List Nat → Nat) (a : Account) : Nat :=
  H [a.publicKey, a.balance, a.actionOrigin, a.released]

/-- `MerkleMapWitness.computeRootAndKey(value)`: the root obtained by folding
the 255-level path from the leaf value, and the key encoded by the path
bits. -/
def computeRootAndKey (H : List Nat → Nat) (w : List Main.WitnessEntry)
    (value : Nat) : Nat × Nat :=
  (w.foldl (fun h e => if e.1 then H [h, e.2] else H [e.2, h]) value,
   w.foldr (fun e acc => 2 * acc + (if e.1 then 0 else 1)) 0)

/-- `root = new MerkleMap().getRoot()`: the root of the empty map (a sparse
tree of height 256, 255 hashing levels above the leaves). -/
def root (H : List Nat → Nat) : Nat := Main.zeroHash H 255

/-- The on-chain state of the `MerkleMap` iteration together with the
dispatched action log and the outgoing transfers of `this.send`. -/
structure ContractState where
  log : List Account
  numberOfPendingActions : Nat
  actionTurn : Nat
  startOfActionsRange : Nat
  endOfActionsRange : Nat
  accountsRoot : Nat
  transfers : List (Nat × Nat)
deriving DecidableEq

/-- `deploy`: initial state of the `MerkleMap` iteration. -/
def deploy (H : List Nat → Nat) : ContractState :=
  { log := []
    numberOfPendingActions := 0
    actionTurn := 0
    startOfActionsRange := 0
    endOfActionsRange := 0
    accountsRoot := root H
    transfers := [] }

/-- `signUpRequest(publicKey, accountWitness)`: asserts the witness proves
the empty leaf under the committed root (the user signature is external) and
dispatches a sign-up action with zero balance.  Note: unlike the main
contract, the action log is not consulted. -/
def signUpRequest (H : List Nat → Nat) (s : ContractState) (publicKey : Nat)
    (accountWitness : List Main.WitnessEntry) : Option ContractState :=
  if s.accountsRoot = (computeRootAndKey H accountWitness 0).1 then
    some { s with
      log := s.log ++
        [{ publicKey := publicKey, balance := 0
           actionOrigin := signUpRequestID, released := 0 }] }
  else none

/-- `addFundsRequest(accountState, accountWitness, amount)`: asserts the
witness proves the claimed state under the committed root, moves the deposit
(external), and dispatches an add-funds action carrying the new balance
(`UInt64.add` aborts on overflow). -/
def addFundsRequest (H : List Nat → Nat) (s : ContractState)
    (accountState : Account) (accountWitness : List Main.WitnessEntry)
    (amount : Nat) : Option ContractState :=
  if s.accountsRoot = (computeRootAndKey H accountWitness (accountState.hash H)).1 then
    if accountState.balance + amount < u64Bound then
      some { s with
        log := s.log ++
          [{ accountState with
             actionOrigin := addFundsRequestID
             balance := accountState.balance + amount }] }
    else none
  else none

/-- `releaseFundsRequest(accountState, accountWitness, amount)`: asserts the
witness proves the claimed state under the committed root, asserts
`amount <= accountState.balance`, and dispatches a release action carrying
the amount (the user signature is external). -/
def releaseFundsRequest (H : List Nat → Nat) (s : ContractState)
    (accountState : Account) (accountWitness : List Main.WitnessEntry)
    (amount : Nat) : Option ContractState :=
  if s.accountsRoot = (computeRootAndKey H accountWitness (accountState.hash H)).1 then
    if amount ≤ accountState.balance then
      some { s with
        log := s.log ++
          [{ accountState with
             actionOrigin := releaseFundsRequestID
             released := amount }] }
    else none
  else none

/-- `setRangeOfActionsToBeProcessed()`: identical to the main contract. -/
def setRangeOfActionsToBeProcessed (s : ContractState) : Option ContractState :=
  if s.numberOfPendingActions = 0 then
    some { s with
      actionTurn := 0
      numberOfPendingActions :=
        (s.log.drop s.endOfActionsRange).foldl (fun st _ => fadd st 1) 0
      startOfActionsRange := s.endOfActionsRange
      endOfActionsRange := s.log.length }
  else none

/-- The actions between `startOfActionsRange` and `endOfActionsRange`. -/
def rangeSlice (s : ContractState) : List Account :=
  (s.log.drop s.startOfActionsRange).take (s.endOfActionsRange - s.startOfActionsRange)

/-- The all-default accumulator of the `getCurrentAction` reduce. -/
def emptyAccount : Account :=
  { publicKey := 0, balance := 0, actionOrigin := 0, released := 0 }

/-- One step of the `getCurrentAction` reduce of the `MerkleMap` iteration. -/
def selectStep (actionTurn : Nat) (st : Nat × Account) (action : Account) :
    Nat × Account :=
  let isCurrentAction := st.1 = actionTurn
  (fadd st.1 1,
   { publicKey := if isCurrentAction then action.publicKey else st.2.publicKey
     balance := if isCurrentAction then action.balance else st.2.balance
     actionOrigin :=
       if isCurrentAction then action.actionOrigin else st.2.actionOrigin
     released := if isCurrentAction then action.released else st.2.released })

/-- The record returned by `getCurrentAction`. -/
structure ActionWithMetadata where
  action : Account
  startOfActionsRange : Nat
  endOfActionsRange : Nat
  actionTurn : Nat
deriving DecidableEq

/-- `getCurrentAction()` of the `MerkleMap` iteration. -/
def getCurrentAction (s : ContractState) : ActionWithMetadata :=
  { action := ((rangeSlice s).foldl (selectStep s.actionTurn) (0, emptyAccount)).2
    startOfActionsRange := s.startOfActionsRange
    endOfActionsRange := s.endOfActionsRange
    actionTurn := s.actionTurn }

/-- `processSignUpRequest(accountWitness)`: computes (without asserting)
whether the witness fails to prove the empty leaf, asserts the current action
is a sign-up, and commits via `Circuit.if`: the root is kept unchanged when
the account is already signed up, else replaced by the root with the new
leaf; the turn advances and the pending count decreases in both cases. -/
def processSignUpRequest (H : List Nat → Nat) (s : ContractState)
    (accountWitness : List Main.WitnessEntry) : Option ContractState :=
  let isSignedUp := ¬ (s.accountsRoot = (computeRootAndKey H accountWitness 0).1)
  let actionWithMetadata := getCurrentAction s
  if actionWithMetadata.action.actionOrigin = signUpRequestID then
    let initialAccountState := actionWithMetadata.action
    let newRoot := (computeRootAndKey H accountWitness (initialAccountState.hash H)).1
    some { s with
      accountsRoot := if isSignedUp then s.accountsRoot else newRoot
      actionTurn := fadd actionWithMetadata.actionTurn 1
      numberOfPendingActions := fsub s.numberOfPendingActions 1 }
  else none

/-- `processAddFundsRequest(accountState, accountWitness)`: asserts the
witness proves the claimed state under the committed root, asserts the
current action is an add-funds action, commits the action payload as the new
leaf, and advances the turn. -/
def processAddFundsRequest (H : List Nat → Nat) (s : ContractState)
    (accountState : Account) (accountWitness : List Main.WitnessEntry) :
    Option ContractState :=
  if s.accountsRoot = (computeRootAndKey H accountWitness (accountState.hash H)).1 then
    let actionWithMetadata := getCurrentAction s
    if actionWithMetadata.action.actionOrigin = addFundsRequestID then
      let newAccountState := actionWithMetadata.action
      some { s with
        accountsRoot := (computeRootAndKey H accountWitness (newAccountState.hash H)).1
        actionTurn := fadd actionWithMetadata.actionTurn 1
        numberOfPendingActions := fsub s.numberOfPendingActions 1 }
    else none
  else none

/-- `processReleaseFundsRequest(accountState, accountWitness)`: asserts the
witness proves the claimed state under the committed root, asserts the
current action is a release, sends the released amount to the hard-coded
service provider, commits the updated record (balance decreased, released
zeroed; `UInt64.sub` aborts on underflow), and advances the turn. -/
def processReleaseFundsRequest (H : List Nat → Nat) (s : ContractState)
    (accountState : Account) (accountWitness : List Main.WitnessEntry) :
    Option ContractState :=
  if s.accountsRoot = (computeRootAndKey H accountWitness (accountState.hash H)).1 then
    let actionWithMetadata := getCurrentAction s
    let action := actionWithMetadata.action
    if action.actionOrigin = releaseFundsRequestID then
      if action.released ≤ action.balance then
        let newAccountState :=
          { action with balance := action.balance - action.released, released := 0 }
        some { s with
          transfers := s.transfers ++ [(serviceProviderAddress, action.released)]
          accountsRoot := (computeRootAndKey H accountWitness (newAccountState.hash H)).1
          actionTurn := fadd actionWithMetadata.actionTurn 1
          numberOfPendingActions := fsub s.numberOfPendingActions 1 }
      else none
    else none
  else none

/-- An external call to the `MerkleMap` iteration. -/
inductive Op where
  | signUpRequest (publicKey : Nat) (accountWitness : List Main.WitnessEntry)
  | addFundsRequest (accountState : Account)
      (accountWitness : List Main.WitnessEntry) (amount : Nat)
  | releaseFundsRequest (accountState : Account)
      (accountWitness : List Main.WitnessEntry) (amount : Nat)
  | setRangeOfActionsToBeProcessed
  | processSignUpRequest (accountWitness : List Main.WitnessEntry)
  | processAddFundsRequest (accountState : Account)
      (accountWitness : List Main.WitnessEntry)
  | processReleaseFundsRequest (accountState : Account)
      (accountWitness : List Main.WitnessEntry)

/-- The settlement handlers among the calls. -/
def Op.isSettlement : Op → Bool
  | .processSignUpRequest _ => true
  | .processAddFundsRequest _ _ => true
  | .processReleaseFundsRequest _ _ => true
  | _ => false

/-- Execute one call of the `MerkleMap` iteration. -/
def step (H : List Nat → Nat) (s : ContractState) : Op → Option ContractState
  | .signUpRequest publicKey accountWitness =>
      signUpRequest H s publicKey accountWitness
  | .addFundsRequest accountState accountWitness amount =>
      addFundsRequest H s accountState accountWitness amount
  | .releaseFundsRequest accountState accountWitness amount =>
      releaseFundsRequest H s accountState accountWitness amount
  | .setRangeOfActionsToBeProcessed => setRangeOfActionsToBeProcessed s
  | .processSignUpRequest accountWitness => processSignUpRequest H s accountWitness
  | .processAddFundsRequest accountState accountWitness =>
      processAddFundsRequest H s accountState accountWitness
  | .processReleaseFundsRequest accountState accountWitness =>
      processReleaseFundsRequest H s accountState accountWitness

/-- Execute a sequence of successful calls of the `MerkleMap` iteration. -/
def run (H : List Nat → Nat) : ContractState → List Op → Option ContractState
  | s, [] => some s
  | s, op :: ops => (step H s op).bind (fun s2 => run H s2 ops)

end MapVariant

/-- A concrete stand-in for the external Poseidon primitive, used to run the
model on explicit inputs (all root equalities and inequalities appearing in
those runs are checked concretely). -/
def Htoy : List Nat → Nat :=
  fun l => (2 * l.foldl (fun a b => a + b) 0 + 1) % p

/-- The chain `[z, H[z,z], H[(H[z,z]),(H[z,z])], ...]` of the given length:
the honest sibling list along an all-empty co-path, built iteratively. -/
def hashChain (H : List Nat → Nat) (z : Nat) : Nat → List Nat
  | 0 => []
  | n + 1 => z :: hashChain H (H [z, z]) n

/-- A concrete sign-up action of the main contract. -/
def c1a : Main.Account :=
  { publicKey := 11, accountNumber := 0, balance := Main.initialBalance
    actionOrigin := Main.signUpMethodID, provider := 0, released := 0 }

/-- A second concrete sign-up action of the main contract. -/
def c1b : Main.Account :=
  { publicKey := 12, accountNumber := 0, balance := Main.initialBalance
    actionOrigin := Main.signUpMethodID, provider := 0, released := 0 }

/-- A concrete main-contract state with a frozen two-action range at turn 1. -/
def c1s : Main.ContractState :=
  { log := [c1a, c1b], startOfAllActions := 0, accountNumber := 1
    numberOfPendingActions := 2, actionTurn := 1, startOfActionsRange := 0
    endOfActionsRange := 2, accountsRoot := 0, transfers := [] }

/-- A concrete main-contract state with two dispatched actions and no open
range. -/
def c2s : Main.ContractState :=
  { log := [c1a, c1b], startOfAllActions := 0, accountNumber := 1
    numberOfPendingActions := 0, actionTurn := 0, startOfActionsRange := 0
    endOfActionsRange := 0, accountsRoot := 0, transfers := [] }

/-- A concrete sign-up action of the `MerkleMap` iteration. -/
def c3acct : MapVariant.Account :=
  { publicKey := 21, balance := 0
    actionOrigin := MapVariant.signUpRequestID, released := 0 }

/-- A concrete `MerkleMap`-iteration state with a one-action open range. -/
def c3s1 : MapVariant.ContractState :=
  { log := [c3acct], numberOfPendingActions := 1, actionTurn := 0
    startOfActionsRange := 0, endOfActionsRange := 1, accountsRoot := 0
    transfers := [] }

/-- The state produced by a sign-up settlement on the freshly deployed
`MerkleMap` iteration (empty range): the pending count wraps to `p - 1`. -/
def c3state : MapVariant.ContractState :=
  { MapVariant.deploy Htoy with actionTurn := 1, numberOfPendingActions := p - 1 }

/-- The state produced by settling the one-action range of `c3s1`. -/
def c3s1done : MapVariant.ContractState :=
  (MapVariant.run Htoy c3s1 [MapVariant.Op.processSignUpRequest []]).getD c3s1

/-- The honest `MerkleWitness(21)` path for leaf index 1 of the empty
`MerkleTree(21)`. -/
def c4w : List Main.WitnessEntry :=
  (false, 0) :: (hashChain Htoy (Htoy [0, 0]) 19).map (fun z => (true, z))

/-- A concrete main-contract trace: one sign-up request, one range freeze,
one sign-up settlement. -/
def c4ops : List Main.Op :=
  [Main.Op.requestSignUp 7, Main.Op.setRangeOfActionsToBeProcessed,
   Main.Op.processSignUpRequestAction c4w]

/-- The state reached by `c4ops` from deployment. -/
def c4state : Main.ContractState :=
  (Main.run Htoy (Main.deploy Htoy) c4ops).getD (Main.deploy Htoy)

/-- The honest `MerkleMapWitness` for key 0 of the empty `MerkleMap` (and
for key 0 of any map whose other leaves are all empty). -/
def c5w : List Main.WitnessEntry := (hashChain Htoy 0 255).map (fun z => (true, z))

/-- A concrete `MerkleMap`-iteration trace: the same identity signs up twice
(both requests are accepted: the ledger still shows the empty leaf), the
range is frozen, and the first sign-up action is settled. -/
def c5ops : List MapVariant.Op :=
  [MapVariant.Op.signUpRequest 7 c5w, MapVariant.Op.signUpRequest 7 c5w,
   MapVariant.Op.setRangeOfActionsToBeProcessed,
   MapVariant.Op.processSignUpRequest c5w]

/-- The state reached by `c5ops` from deployment: identity 7 is committed at
the witnessed key and its duplicate sign-up action is the current action. -/
def c5mid : MapVariant.ContractState :=
  (MapVariant.run Htoy (MapVariant.deploy Htoy) c5ops).getD (MapVariant.deploy Htoy)

/-- The sign-up action dispatched for identity 7. -/
def c5acct : MapVariant.Account :=
  { publicKey := 7, balance := 0
    actionOrigin := MapVariant.signUpRequestID, released := 0 }

/-- The state produced by the replayed sign-up settlement on `c5mid`. -/
def c5res : MapVariant.ContractState :=
  (MapVariant.processSignUpRequest Htoy c5mid c5w).getD c5mid

/-- A concrete `MerkleMap`-iteration trace: two sign-up requests for the same
identity. -/
def c6ops : List MapVariant.Op :=
  [MapVariant.Op.signUpRequest 7 c5w, MapVariant.Op.signUpRequest 7 c5w]

/-- The state reached by `c6ops` from deployment. -/
def c6state : MapVariant.ContractState :=
  (MapVariant.run Htoy (MapVariant.deploy Htoy) c6ops).getD (MapVariant.deploy Htoy)

/-- The state after only the first sign-up request of `c6ops`. -/
def c6first : MapVariant.ContractState :=
  (MapVariant.run Htoy (MapVariant.deploy Htoy)
    [MapVariant.Op.signUpRequest 7 c5w]).getD (MapVariant.deploy Htoy)

/-- A concrete committed account of the `MerkleMap` iteration. -/
def c8acct : MapVariant.Account :=
  { publicKey := 31, balance := 50
    actionOrigin := MapVariant.signUpRequestID, released := 0 }

/-- A concrete `MerkleMap`-iteration state committing `c8acct` under the
empty witness. -/
def c8s : MapVariant.ContractState :=
  { log := [], numberOfPendingActions := 0, actionTurn := 0
    startOfActionsRange := 0, endOfActionsRange := 0
    accountsRoot := (MapVariant.computeRootAndKey Htoy [] (MapVariant.Account.hash Htoy c8acct)).1
    transfers := [] }

/-- A concrete release action of the main contract. -/
def c9act : Main.Account :=
  { publicKey := 41, accountNumber := 1, balance := 60
    actionOrigin := Main.releaseFundsRequestMethodID, provider := 3, released := 25 }

/-- A concrete main-contract state whose current action is `c9act` and whose
root commits `c9act` under the empty witness. -/
def c9s : Main.ContractState :=
  { log := [c9act], startOfAllActions := 0, accountNumber := 2
    numberOfPendingActions := 1, actionTurn := 0, startOfActionsRange := 0
    endOfActionsRange := 1
    accountsRoot := Main.calculateRoot Htoy [] (Main.Account.hash Htoy c9act)
    transfers := [] }

/-- A concrete drained `MerkleMap`-iteration state: the one-action range has
been fully processed (`actionTurn = 1`, no pending actions). -/
def c10s : MapVariant.ContractState :=
  { log := [c3acct], numberOfPendingActions := 0, actionTurn := 1
    startOfActionsRange := 0, endOfActionsRange := 1, accountsRoot := 0
    transfers := [] }

/-! ## Supporting lemmas -/

theorem p_pos : 0 < p := by decide

theorem p_large : 4 < p := by decide

theorem fadd_eq_of_lt {a b : Nat} (h : a + b < p) : fadd a b = a + b := by
  unfold fadd
  exact Nat.mod_eq_of_lt h

theorem fsub_eq_of_le {a b : Nat} (hba : b ≤ a) (ha : a < p) : fsub a b = a - b := by
  unfold fsub
  have hb : b < p := Nat.lt_of_le_of_lt hba ha
  rw [Nat.mod_eq_of_lt hb]
  have h1 : a + (p - b) = p + (a - b) := by omega
  rw [h1, Nat.add_mod_left]
  exact Nat.mod_eq_of_lt (by omega)

theorem fsub_zero_one : fsub 0 1 = p - 1 := by decide

theorem foldl_selIdx_miss {α : Type} (turn : Nat) :
    ∀ (as : List α) (i0 : Nat) (acc : α),
      i0 + as.length < p → (i0 + as.length ≤ turn ∨ turn < i0) →
      (as.foldl (selIdx turn) (i0, acc)).2 = acc := by
  intro as
  induction as with
  | nil => intro i0 acc _ _; rfl
  | cons a rest ih =>
    intro i0 acc hlt hmiss
    have hne : ¬ (i0 = turn) := by
      rcases hmiss with h | h
      · simp only [List.length_cons] at h; omega
      · omega
    have hf : fadd i0 1 = i0 + 1 :=
      fadd_eq_of_lt (by simp only [List.length_cons] at hlt; omega)
    have hstep : selIdx turn (i0, acc) a = (i0 + 1, acc) := by
      unfold selIdx
      simp [hne, hf]
    simp only [List.foldl_cons, hstep]
    apply ih
    · simp only [List.length_cons] at hlt; omega
    · rcases hmiss with h | h
      · left; simp only [List.length_cons] at h; omega
      · right; omega

theorem foldl_selIdx_hit {α : Type} :
    ∀ (as : List α) (k i0 : Nat) (acc : α) (hk : k < as.length),
      i0 + as.length < p →
      (as.foldl (selIdx (i0 + k)) (i0, acc)).2 = as.get ⟨k, hk⟩ := by
  intro as
  induction as with
  | nil => intro k i0 acc hk _; exact absurd hk (by simp)
  | cons a rest ih =>
    intro k i0 acc hk hlt
    have hf : fadd i0 1 = i0 + 1 :=
      fadd_eq_of_lt (by simp only [List.length_cons] at hlt; omega)
    cases k with
    | zero =>
      have hstep : selIdx (i0 + 0) (i0, acc) a = (i0 + 1, a) := by
        unfold selIdx
        simp [hf]
      simp only [List.foldl_cons, hstep]
      have := foldl_selIdx_miss (α := α) (i0 + 0) rest (i0 + 1) a
        (by simp only [List.length_cons] at hlt; omega) (by omega)
      simpa using this
    | succ j =>
      have hstep : selIdx (i0 + (j + 1)) (i0, acc) a = (i0 + 1, acc) := by
        unfold selIdx
        simp [(by omega : ¬ (i0 = i0 + (j + 1))), hf]
      simp only [List.foldl_cons, hstep]
      have hk2 : j < rest.length := by simpa using hk
      have h3 : i0 + (j + 1) = (i0 + 1) + j := by omega
      rw [h3]
      exact ih j (i0 + 1) acc hk2 (by simp only [List.length_cons] at hlt; omega)

/-- The counting fold of `setRangeOfActionsToBeProcessed`: adding `Field(1)`
for each action in a list. -/
theorem foldl_count {α : Type} :
    ∀ (as : List α) (i : Nat), i < p →
      as.foldl (fun st _ => fadd st 1) i = (i + as.length) % p := by
  intro as
  induction as with
  | nil => intro i hi; simpa using (Nat.mod_eq_of_lt hi).symm
  | cons a rest ih =>
    intro i hi
    simp only [List.foldl_cons]
    have h1 : fadd i 1 = (i + 1) % p := rfl
    rw [h1, ih ((i + 1) % p) (Nat.mod_lt _ p_pos), Nat.mod_add_mod]
    simp only [List.length_cons]
    congr 1
    omega

theorem foldl_selIdx_hit_zero {α : Type} (t : Nat) (as : List α) (acc : α)
    (hk : t < as.length) (hp : as.length < p) :
    (as.foldl (selIdx t) (0, acc)).2 = as.get ⟨t, hk⟩ := by
  have h := foldl_selIdx_hit as t 0 acc hk (by omega)
  simpa using h

theorem foldl_selIdx_miss_zero {α : Type} (t : Nat) (as : List α) (acc : α)
    (hge : as.length ≤ t) (hp : as.length < p) :
    (as.foldl (selIdx t) (0, acc)).2 = acc :=
  foldl_selIdx_miss t as 0 acc (by omega) (Or.inl (by omega))

/-- The duplicate-detection fold of `requestSignUp`: or-ing a predicate over
the whole action list. -/
theorem foldl_orpred {α : Type} (f : α → Bool) :
    ∀ (as : List α) (b : Bool),
      as.foldl (fun st a => f a || st) b = (as.any f || b) := by
  intro as
  induction as with
  | nil => intro b; simp
  | cons a rest ih =>
    intro b
    simp only [List.foldl_cons, List.any_cons, ih]
    cases f a <;> cases b <;> simp

namespace Main

theorem selectStep_eq_selIdx (t : Nat) (st : Nat × Account) (a : Account) :
    selectStep t st a = selIdx t st a := by
  unfold selectStep selIdx
  by_cases h : st.1 = t <;> simp [h]

theorem getCurrentAction_hit (s : ContractState)
    (hk : s.actionTurn < (rangeSlice s).length)
    (hp : (rangeSlice s).length < p) :
    (getCurrentAction s).action = (rangeSlice s).get ⟨s.actionTurn, hk⟩ := by
  unfold getCurrentAction
  have hfun : selectStep s.actionTurn = selIdx s.actionTurn := by
    funext st a
    exact selectStep_eq_selIdx s.actionTurn st a
  simp only [hfun]
  exact foldl_selIdx_hit_zero s.actionTurn (rangeSlice s) emptyAccount hk hp

theorem getCurrentAction_miss (s : ContractState)
    (hge : (rangeSlice s).length ≤ s.actionTurn)
    (hp : (rangeSlice s).length < p) :
    (getCurrentAction s).action = emptyAccount := by
  unfold getCurrentAction
  have hfun : selectStep s.actionTurn = selIdx s.actionTurn := by
    funext st a
    exact selectStep_eq_selIdx s.actionTurn st a
  simp only [hfun]
  exact foldl_selIdx_miss_zero s.actionTurn (rangeSlice s) emptyAccount hge hp

theorem rangeSlice_length_le (s : ContractState) :
    (rangeSlice s).length ≤ s.log.length := by
  unfold rangeSlice
  simp only [List.length_take, List.length_drop]
  omega

theorem rangeSlice_length_eq (s : ContractState)
    (h1 : s.startOfActionsRange ≤ s.endOfActionsRange)
    (h2 : s.endOfActionsRange ≤ s.log.length) :
    (rangeSlice s).length = s.endOfActionsRange - s.startOfActionsRange := by
  unfold rangeSlice
  simp only [List.length_take, List.length_drop]
  omega

theorem rangeSlice_subset (s : ContractState) :
    ∀ a ∈ rangeSlice s, a ∈ s.log := by
  intro a ha
  unfold rangeSlice at ha
  exact List.mem_of_mem_drop (List.mem_of_mem_take ha)

theorem requestSignUp_some {s s2 : ContractState} {publicKey : Nat}
    (h : requestSignUp s publicKey = some s2) :
    existsInLog s.log s.startOfAllActions publicKey = false ∧
    s2 = { s with log := s.log ++
      [{ publicKey := publicKey, accountNumber := 0, balance := initialBalance
         actionOrigin := signUpMethodID, provider := 0, released := 0 }] } := by
  unfold requestSignUp at h
  split at h
  · exact absurd h (by simp)
  · rename_i hcond
    cases h
    exact ⟨by simpa using hcond, rfl⟩

theorem setRange_some {s s2 : ContractState}
    (h : setRangeOfActionsToBeProcessed s = some s2) :
    s.numberOfPendingActions = 0 ∧
    s2 = { s with
      actionTurn := 0
      numberOfPendingActions :=
        (s.log.drop s.endOfActionsRange).foldl (fun st _ => fadd st 1) 0
      startOfActionsRange := s.endOfActionsRange
      endOfActionsRange := s.log.length } := by
  unfold setRangeOfActionsToBeProcessed at h
  split at h
  · rename_i hcond
    cases h
    exact ⟨hcond, rfl⟩
  · exact absurd h (by simp)

theorem processSignUpRequestAction_some {H : List Nat → Nat}
    {s s2 : ContractState} {w : List WitnessEntry}
    (h : processSignUpRequestAction H s w = some s2) :
    s.accountsRoot = calculateRoot H w 0 ∧
    (getCurrentAction s).action.actionOrigin = signUpMethodID ∧
    s.accountNumber = calculateIndex w ∧
    s2 = { s with
      accountNumber := fadd s.accountNumber 1
      accountsRoot := calculateRoot H w
        (Account.hash H
          { (getCurrentAction s).action with accountNumber := s.accountNumber })
      actionTurn := fadd s.actionTurn 1
      numberOfPendingActions := fsub s.numberOfPendingActions 1 } := by
  unfold processSignUpRequestAction at h
  split at h
  · rename_i hroot
    dsimp only at h
    split at h
    · rename_i horigin
      split at h
      · rename_i hidx
        cases h
        exact ⟨hroot, horigin, hidx, rfl⟩
      · exact absurd h (by simp)
    · exact absurd h (by simp)
  · exact absurd h (by simp)

theorem releaseFundsRequest_some {H : List Nat → Nat} {s s2 : ContractState}
    {accountState : Account} {w : List WitnessEntry} {provider amount : Nat}
    (h : releaseFundsRequest H s accountState w provider amount = some s2) :
    s.accountsRoot = calculateRoot H w (Account.hash H accountState) ∧
    amount ≤ accountState.balance ∧
    s2 = { s with log := s.log ++
      [{ accountState with
         actionOrigin := releaseFundsRequestMethodID
         provider := provider
         released := amount }] } := by
  unfold releaseFundsRequest at h
  split at h
  · rename_i hroot
    split at h
    · rename_i hle
      cases h
      exact ⟨hroot, hle, rfl⟩
    · exact absurd h (by simp)
  · exact absurd h (by simp)

theorem processReleaseFundsRequest_some {H : List Nat → Nat}
    {s s2 : ContractState} {accountState : Account} {w : List WitnessEntry}
    (h : processReleaseFundsRequest H s accountState w = some s2) :
    s.accountsRoot = calculateRoot H w (Account.hash H accountState) ∧
    (getCurrentAction s).action.actionOrigin = releaseFundsRequestMethodID ∧
    (getCurrentAction s).action.released ≤ (getCurrentAction s).action.balance ∧
    s2 = { s with
      transfers := s.transfers ++
        [((getCurrentAction s).action.provider, (getCurrentAction s).action.released)]
      accountsRoot := calculateRoot H w
        (Account.hash H
          { (getCurrentAction s).action with
            balance :=
              (getCurrentAction s).action.balance - (getCurrentAction s).action.released
            released := 0 })
      actionTurn := fadd s.actionTurn 1
      numberOfPendingActions := fsub s.numberOfPendingActions 1 } := by
  unfold processReleaseFundsRequest at h
  split at h
  · rename_i hroot
    dsimp only at h
    split at h
    · rename_i horigin
      split at h
      · rename_i hle
        cases h
        exact ⟨hroot, horigin, hle, rfl⟩
      · exact absurd h (by simp)
    · exact absurd h (by simp)
  · exact absurd h (by simp)

theorem drained_processSignUpRequestAction_none {H : List Nat → Nat}
    {s : ContractState} (hInv : Inv s) (hp : s.log.length < p)
    (h0 : s.numberOfPendingActions = 0) (w : List WitnessEntry) :
    processSignUpRequestAction H s w = none := by
  obtain ⟨h1, h2, h3, -⟩ := hInv
  have hslice := rangeSlice_length_eq s h1 h2
  have hmiss := getCurrentAction_miss s (by omega)
    (Nat.lt_of_le_of_lt (rangeSlice_length_le s) hp)
  unfold processSignUpRequestAction
  split
  · dsimp only
    rw [hmiss]
    simp [emptyAccount, signUpMethodID]
  · rfl

theorem drained_processReleaseFundsRequest_none {H : List Nat → Nat}
    {s : ContractState} (hInv : Inv s) (hp : s.log.length < p)
    (h0 : s.numberOfPendingActions = 0) (accountState : Account)
    (w : List WitnessEntry) :
    processReleaseFundsRequest H s accountState w = none := by
  obtain ⟨h1, h2, h3, -⟩ := hInv
  have hslice := rangeSlice_length_eq s h1 h2
  have hmiss := getCurrentAction_miss s (by omega)
    (Nat.lt_of_le_of_lt (rangeSlice_length_le s) hp)
  unfold processReleaseFundsRequest
  split
  · dsimp only
    rw [hmiss]
    simp [emptyAccount, releaseFundsRequestMethodID]
  · rfl

theorem step_log_mono {H : List Nat → Nat} {s s2 : ContractState} {op : Op}
    (h : step H s op = some s2) : s.log.length ≤ s2.log.length := by
  cases op with
  | requestSignUp publicKey =>
    obtain ⟨-, rfl⟩ := requestSignUp_some h
    simp
  | releaseFundsRequest accountState w provider amount =>
    obtain ⟨-, -, rfl⟩ := releaseFundsRequest_some h
    simp
  | setRangeOfActionsToBeProcessed =>
    obtain ⟨-, rfl⟩ := setRange_some h
    exact Nat.le_refl _
  | processSignUpRequestAction w =>
    obtain ⟨-, -, -, rfl⟩ := processSignUpRequestAction_some h
    exact Nat.le_refl _
  | processReleaseFundsRequest accountState w =>
    obtain ⟨-, -, -, rfl⟩ := processReleaseFundsRequest_some h
    exact Nat.le_refl _

theorem run_log_mono {H : List Nat → Nat} :
    ∀ (ops : List Op) {s s2 : ContractState},
      run H s ops = some s2 → s.log.length ≤ s2.log.length := by
  intro ops
  induction ops with
  | nil =>
    intro s s2 h
    cases h
    exact Nat.le_refl _
  | cons op ops ih =>
    intro s s2 h
    unfold run at h
    rw [Option.bind_eq_some] at h
    obtain ⟨s1, hstep, hrun⟩ := h
    exact Nat.le_trans (step_log_mono hstep) (ih hrun)

theorem step_inv {H : List Nat → Nat} {s s2 : ContractState} {op : Op}
    (h : step H s op = some s2) (hp : s2.log.length < p) (hInv : Inv s) :
    Inv s2 := by
  obtain ⟨h1, h2, h3, h4⟩ := hInv
  cases op with
  | requestSignUp publicKey =>
    obtain ⟨-, rfl⟩ := requestSignUp_some h
    refine ⟨h1, by simp; omega, h3, ?_⟩
    intro a ha
    rw [List.mem_append] at ha
    rcases ha with ha | ha
    · exact h4 a ha
    · left
      simp only [List.mem_singleton] at ha
      rw [ha]
  | releaseFundsRequest accountState w provider amount =>
    obtain ⟨-, -, rfl⟩ := releaseFundsRequest_some h
    refine ⟨h1, by simp; omega, h3, ?_⟩
    intro a ha
    rw [List.mem_append] at ha
    rcases ha with ha | ha
    · exact h4 a ha
    · right
      simp only [List.mem_singleton] at ha
      rw [ha]
  | setRangeOfActionsToBeProcessed =>
    obtain ⟨h0, rfl⟩ := setRange_some h
    have hplen : s.log.length < p := hp
    have hcount : (s.log.drop s.endOfActionsRange).foldl (fun st _ => fadd st 1) 0 =
        s.log.length - s.endOfActionsRange := by
      rw [foldl_count _ 0 p_pos, List.length_drop, Nat.zero_add]
      exact Nat.mod_eq_of_lt (by omega)
    refine ⟨h2, Nat.le_refl _, ?_, h4⟩
    dsimp only
    rw [hcount]
    omega
  | processSignUpRequestAction w =>
    obtain ⟨-, horigin, -, rfl⟩ := processSignUpRequestAction_some h
    have hplen : s.log.length < p := hp
    have hsl : (rangeSlice s).length < p :=
      Nat.lt_of_le_of_lt (rangeSlice_length_le s) hplen
    have hslice := rangeSlice_length_eq s h1 h2
    have hlt : s.actionTurn < (rangeSlice s).length := by
      by_contra hge
      rw [getCurrentAction_miss s (by omega) hsl] at horigin
      exact absurd horigin (by decide)
    refine ⟨h1, h2, ?_, h4⟩
    dsimp only
    rw [fadd_eq_of_lt (by omega), fsub_eq_of_le (by omega) (by omega)]
    omega
  | processReleaseFundsRequest accountState w =>
    obtain ⟨-, horigin, -, rfl⟩ := processReleaseFundsRequest_some h
    have hplen : s.log.length < p := hp
    have hsl : (rangeSlice s).length < p :=
      Nat.lt_of_le_of_lt (rangeSlice_length_le s) hplen
    have hslice := rangeSlice_length_eq s h1 h2
    have hlt : s.actionTurn < (rangeSlice s).length := by
      by_contra hge
      rw [getCurrentAction_miss s (by omega) hsl] at horigin
      exact absurd horigin (by decide)
    refine ⟨h1, h2, ?_, h4⟩
    dsimp only
    rw [fadd_eq_of_lt (by omega), fsub_eq_of_le (by omega) (by omega)]
    omega

theorem run_inv {H : List Nat → Nat} :
    ∀ (ops : List Op) {s s2 : ContractState},
      run H s ops = some s2 → s2.log.length < p → Inv s → Inv s2 := by
  intro ops
  induction ops with
  | nil =>
    intro s s2 h _ hInv
    cases h
    exact hInv
  | cons op ops ih =>
    intro s s2 h hp hInv
    unfold run at h
    rw [Option.bind_eq_some] at h
    obtain ⟨s1, hstep, hrun⟩ := h
    have hp1 : s1.log.length < p :=
      Nat.lt_of_le_of_lt (run_log_mono ops hrun) hp
    exact ih hrun hp (step_inv hstep hp1 hInv)

theorem deploy_inv (H : List Nat → Nat) : Inv (deploy H) := by
  refine ⟨Nat.le_refl _, Nat.le_refl _, rfl, ?_⟩
  intro a ha
  exact absurd ha (by simp [deploy])

theorem existsInLog_eq_any (log : List Account) (fromCursor publicKey : Nat) :
    existsInLog log fromCursor publicKey =
      (log.drop fromCursor).any (fun a => a.publicKey == publicKey) := by
  unfold existsInLog
  rw [foldl_orpred]
  exact Bool.or_false _

end Main

namespace MapVariant

theorem selectStepMap_eq_selIdx (t : Nat) (st : Nat × Account) (a : Account) :
    selectStep t st a = selIdx t st a := by
  unfold selectStep selIdx
  by_cases h : st.1 = t <;> simp [h]

theorem getCurrentActionMap_hit (s : ContractState)
    (hk : s.actionTurn < (rangeSlice s).length)
    (hp : (rangeSlice s).length < p) :
    (getCurrentAction s).action = (rangeSlice s).get ⟨s.actionTurn, hk⟩ := by
  unfold getCurrentAction
  have hfun : selectStep s.actionTurn = selIdx s.actionTurn := by
    funext st a
    exact selectStepMap_eq_selIdx s.actionTurn st a
  simp only [hfun]
  exact foldl_selIdx_hit_zero s.actionTurn (rangeSlice s) emptyAccount hk hp

theorem getCurrentActionMap_miss (s : ContractState)
    (hge : (rangeSlice s).length ≤ s.actionTurn)
    (hp : (rangeSlice s).length < p) :
    (getCurrentAction s).action = emptyAccount := by
  unfold getCurrentAction
  have hfun : selectStep s.actionTurn = selIdx s.actionTurn := by
    funext st a
    exact selectStepMap_eq_selIdx s.actionTurn st a
  simp only [hfun]
  exact foldl_selIdx_miss_zero s.actionTurn (rangeSlice s) emptyAccount hge hp

theorem processSignUpRequest_some {H : List Nat → Nat} {s s2 : ContractState}
    {w : List Main.WitnessEntry} (h : processSignUpRequest H s w = some s2) :
    (getCurrentAction s).action.actionOrigin = signUpRequestID ∧
    s2 = { s with
      accountsRoot :=
        if ¬ (s.accountsRoot = (computeRootAndKey H w 0).1) then s.accountsRoot
        else (computeRootAndKey H w (Account.hash H (getCurrentAction s).action)).1
      actionTurn := fadd s.actionTurn 1
      numberOfPendingActions := fsub s.numberOfPendingActions 1 } := by
  unfold processSignUpRequest at h
  dsimp only at h
  split at h
  · rename_i horigin
    cases h
    exact ⟨horigin, rfl⟩
  · exact absurd h (by simp)

theorem processAddFundsRequest_some {H : List Nat → Nat} {s s2 : ContractState}
    {accountState : Account} {w : List Main.WitnessEntry}
    (h : processAddFundsRequest H s accountState w = some s2) :
    s.accountsRoot = (computeRootAndKey H w (Account.hash H accountState)).1 ∧
    (getCurrentAction s).action.actionOrigin = addFundsRequestID ∧
    s2 = { s with
      accountsRoot :=
        (computeRootAndKey H w (Account.hash H (getCurrentAction s).action)).1
      actionTurn := fadd s.actionTurn 1
      numberOfPendingActions := fsub s.numberOfPendingActions 1 } := by
  unfold processAddFundsRequest at h
  split at h
  · rename_i hroot
    dsimp only at h
    split at h
    · rename_i horigin
      cases h
      exact ⟨hroot, horigin, rfl⟩
    · exact absurd h (by simp)
  · exact absurd h (by simp)

theorem processReleaseFundsRequestMap_some {H : List Nat → Nat}
    {s s2 : ContractState} {accountState : Account} {w : List Main.WitnessEntry}
    (h : processReleaseFundsRequest H s accountState w = some s2) :
    s.accountsRoot = (computeRootAndKey H w (Account.hash H accountState)).1 ∧
    (getCurrentAction s).action.actionOrigin = releaseFundsRequestID ∧
    (getCurrentAction s).action.released ≤ (getCurrentAction s).action.balance ∧
    s2 = { s with
      transfers := s.transfers ++
        [(serviceProviderAddress, (getCurrentAction s).action.released)]
      accountsRoot := (computeRootAndKey H w
        (Account.hash H
          { (getCurrentAction s).action with
            balance :=
              (getCurrentAction s).action.balance - (getCurrentAction s).action.released
            released := 0 })).1
      actionTurn := fadd s.actionTurn 1
      numberOfPendingActions := fsub s.numberOfPendingActions 1 } := by
  unfold processReleaseFundsRequest at h
  split at h
  · rename_i hroot
    dsimp only at h
    split at h
    · rename_i horigin
      split at h
      · rename_i hle
        cases h
        exact ⟨hroot, horigin, hle, rfl⟩
      · exact absurd h (by simp)
    · exact absurd h (by simp)
  · exact absurd h (by simp)

theorem settlement_delta {H : List Nat → Nat} {s s2 : ContractState} {op : Op}
    (hset : Op.isSettlement op = true) (h : step H s op = some s2) :
    s2.actionTurn = fadd s.actionTurn 1 ∧
    s2.numberOfPendingActions = fsub s.numberOfPendingActions 1 := by
  cases op with
  | signUpRequest publicKey w => exact absurd hset (by simp [Op.isSettlement])
  | addFundsRequest accountState w amount =>
    exact absurd hset (by simp [Op.isSettlement])
  | releaseFundsRequest accountState w amount =>
    exact absurd hset (by simp [Op.isSettlement])
  | setRangeOfActionsToBeProcessed => exact absurd hset (by simp [Op.isSettlement])
  | processSignUpRequest w =>
    obtain ⟨-, rfl⟩ := processSignUpRequest_some h
    exact ⟨rfl, rfl⟩
  | processAddFundsRequest accountState w =>
    obtain ⟨-, -, rfl⟩ := processAddFundsRequest_some h
    exact ⟨rfl, rfl⟩
  | processReleaseFundsRequest accountState w =>
    obtain ⟨-, -, -, rfl⟩ := processReleaseFundsRequestMap_some h
    exact ⟨rfl, rfl⟩

theorem run_settlements {H : List Nat → Nat} :
    ∀ (ops : List Op) {s s2 : ContractState},
      (∀ op ∈ ops, Op.isSettlement op = true) →
      run H s ops = some s2 →
      ops.length ≤ s.numberOfPendingActions →
      s.numberOfPendingActions < p →
      s.actionTurn + ops.length < p →
      s2.actionTurn = s.actionTurn + ops.length ∧
      s2.numberOfPendingActions = s.numberOfPendingActions - ops.length := by
  intro ops
  induction ops with
  | nil =>
    intro s s2 _ hrun _ _ _
    cases hrun
    exact ⟨rfl, rfl⟩
  | cons op ops ih =>
    intro s s2 hall hrun hle hlt hta
    unfold run at hrun
    rw [Option.bind_eq_some] at hrun
    obtain ⟨s1, hstep, hrun2⟩ := hrun
    obtain ⟨he1, he2⟩ := settlement_delta (hall op (by simp)) hstep
    have hta1 : s.actionTurn + 1 < p := by
      simp only [List.length_cons] at hta
      omega
    have hp1 : 1 ≤ s.numberOfPendingActions := by
      simp only [List.length_cons] at hle
      omega
    have h1 : s1.actionTurn = s.actionTurn + 1 := by
      rw [he1, fadd_eq_of_lt hta1]
    have h2 : s1.numberOfPendingActions = s.numberOfPendingActions - 1 := by
      rw [he2, fsub_eq_of_le hp1 hlt]
    simp only [List.length_cons] at hle hta ⊢
    have hrest := ih (fun o hm => hall o (by simp [hm])) hrun2
      (by rw [h2]; omega) (by rw [h2]; omega) (by rw [h1]; omega)
    rcases hrest with ⟨hA, hB⟩
    constructor
    · rw [hA, h1]; omega
    · rw [hB, h2]; omega

end MapVariant

/-! ## Claims -/

/-- Claim C1 (confirmed): for every open range whose frozen entries are
`a1..aN` and every turn `t` with `0 ≤ t < N`, the Current-Action Resolver
`getCurrentAction` of the main contract folds over the whole frozen range
with the branch-free select (every entry is visited, the accumulator is
replaced exactly at position `t`) and returns the payload of entry `a(t+1)`
(the entry at index `t` of the frozen slice) together with the echoed
`startOfActionsRange`, `endOfActionsRange` and `actionTurn`.  The bound
`N < p` rules out wrap-around of the `Field` position counter. -/
theorem C1_getCurrentAction_returns_turn_entry (s : Main.ContractState)
    (t : Nat) (ht : s.actionTurn = t) (hk : t < (Main.rangeSlice s).length)
    (hp : (Main.rangeSlice s).length < p) :
    (Main.getCurrentAction s).action = (Main.rangeSlice s).get ⟨t, hk⟩ ∧
    (Main.getCurrentAction s).startOfActionsRange = s.startOfActionsRange ∧
    (Main.getCurrentAction s).endOfActionsRange = s.endOfActionsRange ∧
    (Main.getCurrentAction s).actionTurn = s.actionTurn := by
  subst ht
  exact ⟨Main.getCurrentAction_hit s hk hp, rfl, rfl, rfl⟩

/-- Witness for C1: on a concrete two-action frozen range at turn 1, the
resolver returns the second entry and echoes the cursors and the turn. -/
theorem C1_witness :
    (Main.getCurrentAction c1s).action = c1b ∧
    (Main.getCurrentAction c1s).startOfActionsRange = 0 ∧
    (Main.getCurrentAction c1s).endOfActionsRange = 2 ∧
    (Main.getCurrentAction c1s).actionTurn = 1 := by
  have h := C1_getCurrentAction_returns_turn_entry c1s 1 rfl (by decide) (by decide)
  exact ⟨h.1.trans (by decide), h.2.1, h.2.2.1, h.2.2.2⟩

/-- Claim C2 (confirmed): from every state with `numberOfPendingActions = 0`
in which `N` actions have been appended since the previous range end cursor,
`setRangeOfActionsToBeProcessed` succeeds; afterwards `startOfActionsRange`
equals the previous `endOfActionsRange`, `endOfActionsRange` equals the log
head at call time, `numberOfPendingActions = N` and `actionTurn = 0`.  The
bound `log.length < p` rules out wrap-around of the `Field` count. -/
theorem C2_setRange_freezes_appended_actions (s : Main.ContractState) (N : Nat)
    (hpend : s.numberOfPendingActions = 0)
    (hcur : s.endOfActionsRange ≤ s.log.length)
    (hp : s.log.length < p)
    (hN : N = s.log.length - s.endOfActionsRange) :
    Main.setRangeOfActionsToBeProcessed s = some
      { s with
        actionTurn := 0
        numberOfPendingActions := N
        startOfActionsRange := s.endOfActionsRange
        endOfActionsRange := s.log.length } := by
  unfold Main.setRangeOfActionsToBeProcessed
  rw [if_pos hpend]
  have hcount : (s.log.drop s.endOfActionsRange).foldl (fun st _ => fadd st 1) 0 =
      s.log.length - s.endOfActionsRange := by
    rw [foldl_count _ 0 p_pos, List.length_drop, Nat.zero_add]
    exact Nat.mod_eq_of_lt (by omega)
  rw [hcount, hN]

/-- Witness for C2: two requests and one range freeze on a concrete state
give `numberOfPendingActions = 2` and `endOfActionsRange` at the log head. -/
theorem C2_witness :
    Main.setRangeOfActionsToBeProcessed c2s = some
      { c2s with
        actionTurn := 0
        numberOfPendingActions := 2
        startOfActionsRange := 0
        endOfActionsRange := 2 } := by
  have h := C2_setRange_freezes_appended_actions c2s 2 rfl (by decide) (by decide)
    (by decide)
  exact h.trans (by decide)

/-- Claim C7 (confirmed): for every settlement handler of either contract
iteration, if the payload returned by the Current-Action Resolver carries an
`actionOrigin` different from the handler's expected tag, the call aborts
(it returns `none`, modelling the failed snarkyjs assertion): no component
of the persisted state — ledger root, turn, pending count, range cursors —
is mutated. -/
theorem C7_origin_mismatch_aborts (H : List Nat → Nat)
    (sA : Main.ContractState) (sB : MapVariant.ContractState) :
    ((Main.getCurrentAction sA).action.actionOrigin ≠ Main.signUpMethodID →
      ∀ w, Main.processSignUpRequestAction H sA w = none) ∧
    ((Main.getCurrentAction sA).action.actionOrigin ≠ Main.releaseFundsRequestMethodID →
      ∀ a w, Main.processReleaseFundsRequest H sA a w = none) ∧
    ((MapVariant.getCurrentAction sB).action.actionOrigin ≠ MapVariant.signUpRequestID →
      ∀ w, MapVariant.processSignUpRequest H sB w = none) ∧
    ((MapVariant.getCurrentAction sB).action.actionOrigin ≠ MapVariant.addFundsRequestID →
      ∀ a w, MapVariant.processAddFundsRequest H sB a w = none) ∧
    ((MapVariant.getCurrentAction sB).action.actionOrigin ≠ MapVariant.releaseFundsRequestID →
      ∀ a w, MapVariant.processReleaseFundsRequest H sB a w = none) := by
  refine ⟨?_, ?_, ?_, ?_, ?_⟩
  · intro hne w
    unfold Main.processSignUpRequestAction
    split
    · dsimp only
      rw [if_neg hne]
    · rfl
  · intro hne a w
    unfold Main.processReleaseFundsRequest
    split
    · dsimp only
      rw [if_neg hne]
    · rfl
  · intro hne w
    unfold MapVariant.processSignUpRequest
    dsimp only
    rw [if_neg hne]
  · intro hne a w
    unfold MapVariant.processAddFundsRequest
    split
    · dsimp only
      rw [if_neg hne]
    · rfl
  · intro hne a w
    unfold MapVariant.processReleaseFundsRequest
    split
    · dsimp only
      rw [if_neg hne]
    · rfl

/-- Witness for C7: on concrete states whose current action is a sign-up,
calling the wrong settlement handler aborts in both iterations. -/
theorem C7_witness :
    Main.processReleaseFundsRequest Htoy c1s c1a [] = none ∧
    MapVariant.processAddFundsRequest Htoy c3s1 c3acct [] = none := by
  have h := C7_origin_mismatch_aborts Htoy c1s c3s1
  exact ⟨h.2.1 (by decide) c1a [], h.2.2.2.1 (by decide) c3acct []⟩

/-- Claim C8 (confirmed): `releaseFundsRequest` (both iterations) asserts
`amount <= accountState.balance`; an amount above the committed balance
aborts the call, dispatching nothing (the log is untouched), while for a
committed state and an amount within the balance a release action carrying
exactly that amount (and, in the main contract, the provider) is appended to
the log. -/
theorem C8_release_request_checks_balance (H : List Nat → Nat)
    (sA : Main.ContractState) (sB : MapVariant.ContractState)
    (acctA : Main.Account) (acctB : MapVariant.Account)
    (wA wB : List Main.WitnessEntry) (provider amountA amountB : Nat) :
    (acctA.balance < amountA →
      Main.releaseFundsRequest H sA acctA wA provider amountA = none) ∧
    (sA.accountsRoot = Main.calculateRoot H wA (Main.Account.hash H acctA) →
      amountA ≤ acctA.balance →
      Main.releaseFundsRequest H sA acctA wA provider amountA = some
        { sA with log := sA.log ++
          [{ acctA with
             actionOrigin := Main.releaseFundsRequestMethodID
             provider := provider
             released := amountA }] }) ∧
    (acctB.balance < amountB →
      MapVariant.releaseFundsRequest H sB acctB wB amountB = none) ∧
    (sB.accountsRoot =
        (MapVariant.computeRootAndKey H wB (MapVariant.Account.hash H acctB)).1 →
      amountB ≤ acctB.balance →
      MapVariant.releaseFundsRequest H sB acctB wB amountB = some
        { sB with log := sB.log ++
          [{ acctB with
             actionOrigin := MapVariant.releaseFundsRequestID
             released := amountB }] }) := by
  refine ⟨?_, ?_, ?_, ?_⟩
  · intro hgt
    unfold Main.releaseFundsRequest
    split
    · rw [if_neg (by omega)]
    · rfl
  · intro hroot hle
    unfold Main.releaseFundsRequest
    rw [if_pos hroot, if_pos hle]
  · intro hgt
    unfold MapVariant.releaseFundsRequest
    split
    · rw [if_neg (by omega)]
    · rfl
  · intro hroot hle
    unfold MapVariant.releaseFundsRequest
    rw [if_pos hroot, if_pos hle]

/-- Witness for C8: a concrete committed account with balance 50 — releasing
60 aborts with the log unchanged, releasing 40 dispatches an action carrying
40. -/
theorem C8_witness :
    MapVariant.releaseFundsRequest Htoy c8s c8acct [] 60 = none ∧
    MapVariant.releaseFundsRequest Htoy c8s c8acct [] 40 = some
      { c8s with log := [{ c8acct with
          actionOrigin := MapVariant.releaseFundsRequestID
          released := 40 }] } := by
  have h1 := (C8_release_request_checks_balance Htoy c2s c8s c1a c8acct
    [] [] 0 0 60).2.2.1 (by decide)
  have h2 := (C8_release_request_checks_balance Htoy c2s c8s c1a c8acct
    [] [] 0 0 40).2.2.2 rfl (by decide)
  exact ⟨h1, h2.trans (by decide)⟩

/-- Claim C9 (confirmed): a release settlement of the main contract commits
a record whose balance is the action's balance minus the action's released
amount (exact natural subtraction, guarded by the `UInt64.sub` range check),
whose released field is zero and whose other fields are the action's; and it
transfers exactly the released amount to the provider recorded in the
action. -/
theorem C9_release_settlement_conserves_balance (H : List Nat → Nat)
    (s : Main.ContractState) (acct : Main.Account) (w : List Main.WitnessEntry)
    (hroot : s.accountsRoot = Main.calculateRoot H w (Main.Account.hash H acct))
    (horigin : (Main.getCurrentAction s).action.actionOrigin =
      Main.releaseFundsRequestMethodID)
    (hle : (Main.getCurrentAction s).action.released ≤
      (Main.getCurrentAction s).action.balance) :
    Main.processReleaseFundsRequest H s acct w = some
      { s with
        transfers := s.transfers ++
          [((Main.getCurrentAction s).action.provider,
            (Main.getCurrentAction s).action.released)]
        accountsRoot := Main.calculateRoot H w
          (Main.Account.hash H
            { (Main.getCurrentAction s).action with
              balance := (Main.getCurrentAction s).action.balance -
                (Main.getCurrentAction s).action.released
              released := 0 })
        actionTurn := fadd s.actionTurn 1
        numberOfPendingActions := fsub s.numberOfPendingActions 1 } := by
  unfold Main.processReleaseFundsRequest
  rw [if_pos hroot]
  dsimp only
  rw [if_pos horigin, if_pos hle]
  rfl

/-- Witness for C9: a concrete release action with balance 60 and released
25 settles to a committed record with balance 35 and released 0, and the
provider 3 is credited 25. -/
theorem C9_witness :
    Main.processReleaseFundsRequest Htoy c9s c9act [] = some
      { c9s with
        transfers := [(3, 25)]
        accountsRoot := Main.calculateRoot Htoy []
          (Main.Account.hash Htoy { c9act with balance := 35, released := 0 })
        actionTurn := 1
        numberOfPendingActions := 0 } := by
  have h := C9_release_settlement_conserves_balance Htoy c9s c9act [] rfl
    (by decide) (by decide)
  exact h.trans (by decide)

/-- Claim C10 (confirmed): when the frozen range has no entry at position
`actionTurn` (empty range, or turn at or beyond the range size),
`getCurrentAction` of the `MerkleMap` iteration does not fail: it returns
the default record — empty public key, zero balance, zero released,
`actionOrigin = 0` — and since `signUpRequestID = 0` in that iteration, the
default record satisfies the origin check of `processSignUpRequest`, which
therefore succeeds for every witness. -/
theorem C10_default_action_passes_signup_check (s : MapVariant.ContractState)
    (hge : (MapVariant.rangeSlice s).length ≤ s.actionTurn)
    (hp : (MapVariant.rangeSlice s).length < p) :
    (MapVariant.getCurrentAction s).action = MapVariant.emptyAccount ∧
    MapVariant.emptyAccount.actionOrigin = MapVariant.signUpRequestID ∧
    ∀ (H : List Nat → Nat) (w : List Main.WitnessEntry),
      (MapVariant.processSignUpRequest H s w).isSome := by
  have hmiss := MapVariant.getCurrentActionMap_miss s hge hp
  refine ⟨hmiss, rfl, ?_⟩
  intro H w
  unfold MapVariant.processSignUpRequest
  dsimp only
  rw [hmiss]
  simp [MapVariant.emptyAccount, MapVariant.signUpRequestID]

/-- Witness for C10: on a concrete drained range the resolver returns the
default record and the sign-up settlement succeeds. -/
theorem C10_witness :
    (MapVariant.getCurrentAction c10s).action = MapVariant.emptyAccount ∧
    (MapVariant.processSignUpRequest Htoy c10s []).isSome := by
  have h := C10_default_action_passes_signup_check c10s (by decide) (by decide)
  exact ⟨h.1, h.2.2 Htoy []⟩

/-- Counterexample to claim C3: in the `MerkleMap` iteration a sign-up
settlement succeeds on the freshly deployed contract (empty range,
`numberOfPendingActions = 0`, see C10), and the `Field` decrement wraps: the
pending count goes from 0 to `p - 1` — an increase, not a decrease by
exactly one. -/
theorem C3_counterexample :
    (MapVariant.deploy Htoy).numberOfPendingActions = 0 ∧
    MapVariant.processSignUpRequest Htoy (MapVariant.deploy Htoy) [] =
      some c3state ∧
    c3state.numberOfPendingActions = p - 1 ∧
    (MapVariant.deploy Htoy).numberOfPendingActions <
      c3state.numberOfPendingActions := by
  decide

/-- Claim C3 amended (the deltas are `Field` operations mod `p`: a
settlement that succeeds with `pendingCount = 0` — possible in the
`MerkleMap` iteration on a drained range — wraps the pending count to
`p - 1` instead of decreasing it; with `1 ≤ pendingCount` and no wrap the
deltas are the exact `+1` / `-1` the claim states): every successful
settlement call (process-sign-up / process-add-funds / process-release-funds)
sets `turn := turn + 1 (mod p)` and `pendingCount := pendingCount - 1
(mod p)`; consequently, from every open range with `pendingCount = N` and
`turn = 0`, any sequence of `N` successful settlement calls, one per action,
ends with `pendingCount = 0` and `turn = N`. -/
theorem C3_amended_settlement_advances_turn (H : List Nat → Nat) :
    (∀ (s s2 : MapVariant.ContractState) (w : List Main.WitnessEntry),
      MapVariant.processSignUpRequest H s w = some s2 →
      s2.actionTurn = fadd s.actionTurn 1 ∧
      s2.numberOfPendingActions = fsub s.numberOfPendingActions 1) ∧
    (∀ (s s2 : MapVariant.ContractState) (a : MapVariant.Account)
        (w : List Main.WitnessEntry),
      MapVariant.processAddFundsRequest H s a w = some s2 →
      s2.actionTurn = fadd s.actionTurn 1 ∧
      s2.numberOfPendingActions = fsub s.numberOfPendingActions 1) ∧
    (∀ (s s2 : MapVariant.ContractState) (a : MapVariant.Account)
        (w : List Main.WitnessEntry),
      MapVariant.processReleaseFundsRequest H s a w = some s2 →
      s2.actionTurn = fadd s.actionTurn 1 ∧
      s2.numberOfPendingActions = fsub s.numberOfPendingActions 1) ∧
    (∀ (s s2 : MapVariant.ContractState) (op : MapVariant.Op),
      MapVariant.Op.isSettlement op = true → MapVariant.step H s op = some s2 →
      1 ≤ s.numberOfPendingActions → s.numberOfPendingActions < p →
      s.actionTurn + 1 < p →
      s2.actionTurn = s.actionTurn + 1 ∧
      s2.numberOfPendingActions = s.numberOfPendingActions - 1) ∧
    (∀ (ops : List MapVariant.Op) (s s2 : MapVariant.ContractState),
      (∀ op ∈ ops, MapVariant.Op.isSettlement op = true) →
      MapVariant.run H s ops = some s2 →
      s.numberOfPendingActions = ops.length → s.actionTurn = 0 →
      ops.length < p →
      s2.numberOfPendingActions = 0 ∧ s2.actionTurn = ops.length) := by
  refine ⟨?_, ?_, ?_, ?_, ?_⟩
  · intro s s2 w h
    obtain ⟨-, rfl⟩ := MapVariant.processSignUpRequest_some h
    exact ⟨rfl, rfl⟩
  · intro s s2 a w h
    obtain ⟨-, -, rfl⟩ := MapVariant.processAddFundsRequest_some h
    exact ⟨rfl, rfl⟩
  · intro s s2 a w h
    obtain ⟨-, -, -, rfl⟩ := MapVariant.processReleaseFundsRequestMap_some h
    exact ⟨rfl, rfl⟩
  · intro s s2 op hset h h1 h2 h3
    obtain ⟨he1, he2⟩ := MapVariant.settlement_delta hset h
    exact ⟨by rw [he1, fadd_eq_of_lt h3], by rw [he2, fsub_eq_of_le h1 h2]⟩
  · intro ops s s2 hall hrun hpend hturn hlen
    obtain ⟨hA, hB⟩ := MapVariant.run_settlements ops hall hrun
      (by omega) (by omega) (by omega)
    exact ⟨by omega, by omega⟩

/-- Witness for C3 (amended): settling the concrete one-action range of
`c3s1` (pending 1, turn 0) with one call ends with pending 0 and turn 1. -/
theorem C3_witness :
    c3s1done.numberOfPendingActions = 0 ∧ c3s1done.actionTurn = 1 := by
  exact (C3_amended_settlement_advances_turn Htoy).2.2.2.2
    [MapVariant.Op.processSignUpRequest []] c3s1 c3s1done
    (by decide) (by decide) rfl rfl (by decide)

/-- Counterexample to claim C4: a concrete reachable state of the main
contract — one sign-up request, one range freeze, one sign-up settlement over
the honest witness — has `actionTurn = 1 > 0 = numberOfPendingActions`: the
turn exceeds the pending count as soon as more than half of the open range
has been settled (here the whole one-action range). -/
theorem C4_counterexample :
    Main.run Htoy (Main.deploy Htoy) c4ops = some c4state ∧
    c4state.numberOfPendingActions < c4state.actionTurn := by
  decide

/-- Claim C4 amended (the clause "turn never exceeds pendingCount" is false —
the code keeps `turn + pendingCount` equal to the size of the open range, so
the turn exceeds the pending count in the second half of every range; the
remaining clauses hold for the main contract): in every state of the main
contract reachable from deployment by request, range-freeze and settlement
calls, with fewer than `p` logged actions (so no `Field` wrap is possible),
the range cursors are valid log positions, `turn + pendingCount` always
equals the size of the open range — in particular neither counter ever
underflows — and once the range is drained (`pendingCount = 0`) no
settlement call can succeed.  (In the `MerkleMap` iteration a drained
sign-up settlement can still succeed and wraps the pending count: see C10
and the C3 counterexample.) -/
theorem C4_amended_reachable_state_invariant (H : List Nat → Nat)
    (ops : List Main.Op) (s : Main.ContractState)
    (hrun : Main.run H (Main.deploy H) ops = some s)
    (hp : s.log.length < p) :
    s.startOfActionsRange ≤ s.endOfActionsRange ∧
    s.endOfActionsRange ≤ s.log.length ∧
    s.actionTurn + s.numberOfPendingActions =
      s.endOfActionsRange - s.startOfActionsRange ∧
    (s.numberOfPendingActions = 0 →
      (∀ w, Main.processSignUpRequestAction H s w = none) ∧
      (∀ a w, Main.processReleaseFundsRequest H s a w = none)) := by
  have hInv := Main.run_inv ops hrun hp (Main.deploy_inv H)
  obtain ⟨h1, h2, h3, h4⟩ := hInv
  refine ⟨h1, h2, h3, ?_⟩
  intro h0
  exact ⟨fun w =>
      Main.drained_processSignUpRequestAction_none ⟨h1, h2, h3, h4⟩ hp h0 w,
    fun a w =>
      Main.drained_processReleaseFundsRequest_none ⟨h1, h2, h3, h4⟩ hp h0 a w⟩

/-- Witness for C4 (amended): the invariant at the concrete reachable state
`c4state`, whose one-action range is fully drained, and the failure of a
settlement call there. -/
theorem C4_witness :
    c4state.actionTurn + c4state.numberOfPendingActions =
      c4state.endOfActionsRange - c4state.startOfActionsRange ∧
    Main.processSignUpRequestAction Htoy c4state [] = none := by
  have h := C4_amended_reachable_state_invariant Htoy c4ops c4state
    (by decide) (by decide)
  exact ⟨h.2.2.1, (h.2.2.2 (by decide)).1 []⟩

/-- Counterexample to claim C5: in the `MerkleMap` iteration a replayed
sign-up settlement for an already-committed identity is not rejected.  In
the concrete reachable state `c5mid`, identity 7 is committed at the
witnessed key — the honest witness `c5w` reconstructs the live root from the
account leaf, and no longer from the empty-leaf sentinel — its duplicate
sign-up action is the current action, and `processSignUpRequest` succeeds,
changing the turn and the pending count while silently keeping the root. -/
theorem C5_counterexample :
    MapVariant.run Htoy (MapVariant.deploy Htoy) c5ops = some c5mid ∧
    c5mid.accountsRoot =
      (MapVariant.computeRootAndKey Htoy c5w (MapVariant.Account.hash Htoy c5acct)).1 ∧
    ¬ (c5mid.accountsRoot = (MapVariant.computeRootAndKey Htoy c5w 0).1) ∧
    MapVariant.processSignUpRequest Htoy c5mid c5w = some c5res ∧
    c5res.actionTurn ≠ c5mid.actionTurn := by
  decide

/-- Claim C5 amended (the rejection clause holds only for the main contract;
the `MerkleMap` iteration does not reject a replayed sign-up settlement —
it succeeds as a silent no-op on the root while still advancing the
counters): in the main contract, the sign-up settlement requires the
caller-supplied witness to reconstruct the currently committed root from the
empty-leaf sentinel, and aborts with no state change otherwise; in the
`MerkleMap` iteration, when the witness fails to prove the empty leaf (the
already-committed case) the settlement still succeeds, keeps the ledger root
unchanged, and advances the turn and decrements the pending count. -/
theorem C5_amended_signup_witness_check (H : List Nat → Nat)
    (sA : Main.ContractState) (sB s2 : MapVariant.ContractState)
    (wA wB : List Main.WitnessEntry) :
    (¬ (sA.accountsRoot = Main.calculateRoot H wA 0) →
      Main.processSignUpRequestAction H sA wA = none) ∧
    (¬ (sB.accountsRoot = (MapVariant.computeRootAndKey H wB 0).1) →
      MapVariant.processSignUpRequest H sB wB = some s2 →
      s2.accountsRoot = sB.accountsRoot ∧
      s2.actionTurn = fadd sB.actionTurn 1 ∧
      s2.numberOfPendingActions = fsub sB.numberOfPendingActions 1) := by
  constructor
  · intro hne
    unfold Main.processSignUpRequestAction
    rw [if_neg hne]
  · intro hne h
    obtain ⟨-, rfl⟩ := MapVariant.processSignUpRequest_some h
    refine ⟨?_, rfl, rfl⟩
    dsimp only
    rw [if_pos hne]

/-- Witness for C5 (amended): the main contract rejects a sign-up settlement
whose witness does not prove the empty leaf, and on the concrete replay
state `c5mid` the `MerkleMap` iteration keeps the root while advancing the
counters. -/
theorem C5_witness :
    Main.processSignUpRequestAction Htoy (Main.deploy Htoy) [] = none ∧
    c5res.accountsRoot = c5mid.accountsRoot ∧
    c5res.actionTurn = fadd c5mid.actionTurn 1 ∧
    c5res.numberOfPendingActions = fsub c5mid.numberOfPendingActions 1 := by
  have h := C5_amended_signup_witness_check Htoy (Main.deploy Htoy) c5mid c5res
    [] c5w
  exact ⟨h.1 (by decide), h.2 (by decide) (by decide)⟩

/-- Counterexample to claim C6: in the `MerkleMap` iteration the duplicate
check of `signUpRequest` consults only the committed ledger, not the log, so
after the first sign-up request for identity 7 (which appears in the log but
is not yet settled) a second request for the same identity is accepted, and
the log then contains two sign-up entries for that identity rather than
one. -/
theorem C6_counterexample :
    MapVariant.run Htoy (MapVariant.deploy Htoy) c6ops = some c6state ∧
    c6first.log = [c5acct] ∧
    (MapVariant.signUpRequest Htoy c6first 7 c5w).isSome ∧
    (c6state.log.filter (fun a => a.publicKey == 7)).length = 2 := by
  decide

/-- Claim C6 amended (the whole-log duplicate fold exists only in the main
contract; the `MerkleMap` iteration checks the committed ledger instead and
accepts a duplicate request while the first request is unsettled — see the
counterexample): in the main contract, a sign-up request for an identity
appearing anywhere in the log from the genesis cursor is rejected before
dispatch by the whole-log fold, aborting with the log unchanged (an identity
with exactly one entry keeps exactly one), and a request for an identity
absent from the log dispatches exactly one sign-up entry for it. -/
theorem C6_amended_duplicate_signup_rejected (s : Main.ContractState)
    (publicKey : Nat) :
    ((s.log.drop s.startOfAllActions).any
        (fun a => a.publicKey == publicKey) = true →
      Main.requestSignUp s publicKey = none) ∧
    ((s.log.drop s.startOfAllActions).any
        (fun a => a.publicKey == publicKey) = false →
      Main.requestSignUp s publicKey = some { s with log := s.log ++
        [{ publicKey := publicKey, accountNumber := 0
           balance := Main.initialBalance, actionOrigin := Main.signUpMethodID
           provider := 0, released := 0 }] }) := by
  constructor
  · intro hmem
    simp [Main.requestSignUp, Main.existsInLog_eq_any, hmem]
  · intro hmem
    simp [Main.requestSignUp, Main.existsInLog_eq_any, hmem]

/-- Witness for C6 (amended): on a concrete state, a duplicate request for
identity 11 is rejected and a request for the fresh identity 99 dispatches
its sign-up entry. -/
theorem C6_witness :
    Main.requestSignUp c1s 11 = none ∧
    Main.requestSignUp c2s 99 = some { c2s with log := c2s.log ++
      [{ publicKey := 99, accountNumber := 0
         balance := Main.initialBalance, actionOrigin := Main.signUpMethodID
         provider := 0, released := 0 }] } := by
  exact ⟨(C6_amended_duplicate_signup_rejected c1s 11).1 (by decide),
    (C6_amended_duplicate_signup_rejected c2s 99).2 (by decide)⟩

end ProofOfCommitment
